import Mathlib

/-!
Verification of the winter unit-test harness (a single-header C testing
library).  The definitions below are shallow embeddings of the functions in
src/include/winter/test.h and src/src/error.c: C strings become `List Char`,
fallible code becomes `Except`, the child-process poll loop becomes a
function over an explicit list of observed poll events, and the thread
barrier becomes an executable interleaving transition system.
-/

set_option maxHeartbeats 1000000
set_option maxRecDepth 4000

namespace Winter

/-! ## Pattern matcher (src/include/winter/test.h, `_winter_pattern_match_suite`,
`_winter_pattern_match_test`, `_winter_is_suite_enabled`, `_winter_is_unit_enabled`) -/

/-- Model of `strchr(s, c)`: index of the first occurrence of `c` in the
C string `s`, or `none` when absent. -/
def strchrIdx (s : List Char) (c : Char) : Option Nat :=
  match s with
  | [] => none
  | x :: rest => if x = c then some 0 else (strchrIdx rest c).map (fun i => i + 1)

/-- Length of the pattern prefix compared by `_winter_pattern_match_suite`:
`separator ? separator - pattern : strlen(pattern)`. -/
def sepLen (pattern : List Char) : Nat :=
  match strchrIdx pattern ':' with
  | some i => i
  | none => pattern.length

/-- Embedding of `_winter_pattern_match_suite`: the prefix of `pattern` before
its first colon must have the same length as `name` and the same bytes
(`length == strlen(name) && strncmp(name, pattern, length) == 0`). -/
def match_suite (pattern name : List Char) : Bool :=
  decide (sepLen pattern = name.length) && decide (pattern.take (sepLen pattern) = name)

/-- Specification-side definition: the suite part of a pattern is the prefix
before its first colon. -/
def suitePart (pattern : List Char) : List Char :=
  pattern.takeWhile (fun c => !(c = ':'))

/-- Result of the external `fnmatch(3)` call: match, `FNM_NOMATCH`, or any
other (error) return value. -/
inductive FnmRes where
  | ok : FnmRes
  | nomatch : FnmRes
  | err : FnmRes
deriving DecidableEq

/-- Embedding of `_winter_pattern_match_test`, parametric in the `fnmatch`
oracle `fnm`.  No colon in the pattern means every test name matches; an
`fnmatch` error return triggers `_winter_fatal_error` (modelled as
`Except.error ()`). -/
def match_test (fnm : List Char → List Char → FnmRes) (pattern name : List Char) :
    Except Unit Bool :=
  match strchrIdx pattern ':' with
  | none => Except.ok true
  | some i =>
    match fnm (pattern.drop (i + 1)) name with
    | FnmRes.ok => Except.ok true
    | FnmRes.nomatch => Except.ok false
    | FnmRes.err => Except.error ()

/-- Embedding of `_winter_is_suite_enabled`: no patterns selects everything,
otherwise some pattern's suite part must match. -/
def is_suite_enabled (patterns : List (List Char)) (name : List Char) : Bool :=
  if patterns.isEmpty then true
  else patterns.any (fun p => match_suite p name)

/-- Loop body of `_winter_is_unit_enabled`: scan the patterns in order,
skipping those whose suite part does not match, returning true on the first
pattern whose test part also matches, and propagating a fatal `fnmatch`
error. -/
def unit_enabled_loop (fnm : List Char → List Char → FnmRes)
    (patterns : List (List Char)) (suite test : List Char) : Except Unit Bool :=
  match patterns with
  | [] => Except.ok false
  | p :: rest =>
    if match_suite p suite then
      match match_test fnm p test with
      | Except.error e => Except.error e
      | Except.ok true => Except.ok true
      | Except.ok false => unit_enabled_loop fnm rest suite test
    else
      unit_enabled_loop fnm rest suite test

/-- Embedding of `_winter_is_unit_enabled`. -/
def is_unit_enabled (fnm : List Char → List Char → FnmRes)
    (patterns : List (List Char)) (suite test : List Char) : Except Unit Bool :=
  if patterns.isEmpty then Except.ok true
  else unit_enabled_loop fnm patterns suite test

/-! ## Child exit classification (src/include/winter/test.h,
`_winter_unit_execute`, lines 490-509) -/

/-- The reserved assertion-failure sentinel `WINTER_EXIT_FAILURE`. -/
def WINTER_EXIT_FAILURE : Nat := 255

/-- How the child process terminated: `WIFEXITED` with an exit code, or
`WIFSIGNALED` with a terminating signal. -/
inductive ChildStatus where
  | exited (code : Nat) : ChildStatus
  | signaled (sig : Nat) : ChildStatus
deriving DecidableEq

/-- The extra diagnostic line printed by `_winter_unit_execute` after the
child terminates: none, a line naming the exit code, or a line naming the
signal. -/
inductive ExitDiag where
  | noLine : ExitDiag
  | exitCodeLine (code : Nat) : ExitDiag
  | signalLine (sig : Nat) : ExitDiag
deriving DecidableEq

/-- Embedding of the status classification at the end of
`_winter_unit_execute`: the returned success flag together with the
diagnostic line printed. -/
def classify_exit (st : ChildStatus) : Bool × ExitDiag :=
  match st with
  | ChildStatus.exited code =>
    if code ≠ 0 then
      if code ≠ WINTER_EXIT_FAILURE then (false, ExitDiag.exitCodeLine code)
      else (false, ExitDiag.noLine)
    else (true, ExitDiag.noLine)
  | ChildStatus.signaled sig => (false, ExitDiag.signalLine sig)

/-! ## Timeout enforcement and the poll loop (src/include/winter/test.h,
`_winter_kill_process`, `_winter_unit_execute` lines 464-488) -/

/-- One step of `_winter_kill_process`: `kill(pid, SIGCONT)`,
`kill(pid, SIGKILL)`, `waitpid(pid, ...)`. -/
inductive KillStep where
  | sendCont : KillStep
  | sendKill : KillStep
  | reap : KillStep
deriving DecidableEq

/-- Embedding of `_winter_kill_process`: the sequence of system calls it
performs, given whether the `SIGCONT` and `SIGKILL` sends succeed (a failed
send makes the function return early after printing). -/
def kill_process (contOk killOk : Bool) : List KillStep :=
  if !contOk then [KillStep.sendCont]
  else if !killOk then [KillStep.sendCont, KillStep.sendKill]
  else [KillStep.sendCont, KillStep.sendKill, KillStep.reap]

/-- One observation of the `waitpid(pid, &status, WNOHANG)` poll in
`_winter_unit_execute`: the child exited with `st`; or no status was reported
yet and the elapsed wall-clock time is `elapsed` milliseconds; or `waitpid`
failed with `EINTR`; or it failed with some other error. -/
inductive PollEvent where
  | exited (st : ChildStatus) : PollEvent
  | running (elapsed : ℚ) : PollEvent
  | waitErrIntr : PollEvent
  | waitErrFatal : PollEvent
deriving DecidableEq

/-- Result of the poll loop in `_winter_unit_execute`.  `timedOut` records
the kill sequence performed by `_winter_kill_process` and stands for the
timeout diagnostic (`"Process timed out after ..."`) plus the `return false`;
`stillPolling` means the supplied event list ended before the loop did. -/
inductive ExecResult where
  | finished (st : ChildStatus) : ExecResult
  | timedOut (kills : List KillStep) : ExecResult
  | waitFailed : ExecResult
  | stillPolling : ExecResult
deriving DecidableEq

/-- Embedding of the poll loop of `_winter_unit_execute`: `timeoutOn` is
`_winter.opts.timeout`, `timeout` the test's timeout in milliseconds, and the
event list the successive observations made by `waitpid`/`_winter_now`. -/
def unit_execute_loop (timeoutOn : Bool) (timeout : ℚ) (contOk killOk : Bool) :
    List PollEvent → ExecResult
  | [] => ExecResult.stillPolling
  | e :: rest =>
    match e with
    | PollEvent.exited st => ExecResult.finished st
    | PollEvent.running elapsed =>
      if timeoutOn && decide (timeout < elapsed) then
        ExecResult.timedOut (kill_process contOk killOk)
      else
        unit_execute_loop timeoutOn timeout contOk killOk rest
    | PollEvent.waitErrIntr => unit_execute_loop timeoutOn timeout contOk killOk rest
    | PollEvent.waitErrFatal => ExecResult.waitFailed

/-- True when the given poll observation lets the loop continue to the next
iteration (instead of terminating it). -/
def poll_continues (timeoutOn : Bool) (timeout : ℚ) : PollEvent → Bool
  | PollEvent.running elapsed => !(timeoutOn && decide (timeout < elapsed))
  | PollEvent.waitErrIntr => true
  | _ => false

/-- The boolean returned by `_winter_unit_execute` for each loop result
(`none` when the loop has not terminated yet). -/
def exec_outcome : ExecResult → Option Bool
  | ExecResult.finished st => some (classify_exit st).1
  | ExecResult.timedOut _ => some false
  | ExecResult.waitFailed => some false
  | ExecResult.stillPolling => none

/-! ## The run loop and exit status (src/include/winter/test.h,
`_winter_main`) -/

/-- A registered suite: its name and the names of its tests, in registration
order (the other `winter_test_t` fields do not influence selection or the
exit status). -/
structure WSuite where
  name : List Char
  tests : List (List Char)
deriving DecidableEq

/-- The inner loop of `_winter_main` over one enabled suite's tests: returns
the list of executed units (test name, success flag from
`_winter_unit_execute`, modelled by the oracle `outcome`) and whether a fatal
configuration error aborted the run.  The rerun/debug loop never changes the
recorded success flag, so it does not appear here. -/
def run_tests (fnm : List Char → List Char → FnmRes) (patterns : List (List Char))
    (outcome : List Char → List Char → Bool) (sname : List Char) :
    List (List Char) → List (List Char × Bool) × Bool
  | [] => ([], false)
  | t :: rest =>
    match is_unit_enabled fnm patterns sname t with
    | Except.error _ => ([], true)
    | Except.ok false => run_tests fnm patterns outcome sname rest
    | Except.ok true =>
      ((t, outcome sname t) :: (run_tests fnm patterns outcome sname rest).1,
       (run_tests fnm patterns outcome sname rest).2)

/-- The outer loop of `_winter_main` over the suites: executed units tagged
with their suite name, plus the fatal-abort flag. -/
def run_suites (fnm : List Char → List Char → FnmRes) (patterns : List (List Char))
    (outcome : List Char → List Char → Bool) :
    List WSuite → List (List Char × List Char × Bool) × Bool
  | [] => ([], false)
  | s :: rest =>
    if is_suite_enabled patterns s.name then
      let r := run_tests fnm patterns outcome s.name s.tests
      let tagged := r.1.map (fun u => (s.name, u.1, u.2))
      if r.2 then (tagged, true)
      else (tagged ++ (run_suites fnm patterns outcome rest).1,
            (run_suites fnm patterns outcome rest).2)
    else run_suites fnm patterns outcome rest

/-- Embedding of `_winter_main`: the executed-unit trace together with the
process exit status — `EXIT_SUCCESS` (0) when the global test count equals
the global success count, `EXIT_FAILURE` (1) otherwise, and `Except.error ()`
when `_winter_fatal_error` aborted the run. -/
def winter_main (fnm : List Char → List Char → FnmRes) (patterns : List (List Char))
    (outcome : List Char → List Char → Bool) (suites : List WSuite) :
    List (List Char × List Char × Bool) × Except Unit Nat :=
  let r := run_suites fnm patterns outcome suites
  if r.2 then (r.1, Except.error ())
  else (r.1,
    Except.ok (if r.1.length = (r.1.filter (fun u => u.2.2)).length then 0 else 1))

/-! ## The isolated test process (src/include/winter/test.h,
`_winter_process_entry`) -/

/-- Dispatch id of the before-each hook (`WINTER_FUNC_BEFORE_EACH`). -/
def WINTER_FUNC_BEFORE_EACH : Nat := 1

/-- Dispatch id of the after-each hook (`WINTER_FUNC_AFTER_EACH`). -/
def WINTER_FUNC_AFTER_EACH : Nat := 2

/-- One invocation of the suite dispatch callback inside the isolated
process: a hook call (before-each or after-each id) or a test-body call with
the executing thread's index. -/
inductive ProcEvent where
  | hook (id : Nat) : ProcEvent
  | body (id : Nat) (thread : Nat) : ProcEvent
deriving DecidableEq

/-- Embedding of `_winter_process_entry` on the path where nothing fails:
the sequence of dispatch-callback invocations and the exit status passed to
`_exit` by the child in `_winter_unit_execute` (0).  The barrier state
initialisation between before-each and the body is `sync_init threads`
below.  With `threads == 1` the body runs directly with thread id 0;
otherwise one worker per index in `0 .. threads-1` is spawned and joined
(the list order is one linearisation of the concurrent bodies). -/
def process_entry (threads testId : Nat) : List ProcEvent × Nat :=
  let bodies :=
    if threads = 1 then [ProcEvent.body testId 0]
    else (List.range threads).map (fun i => ProcEvent.body testId i)
  (ProcEvent.hook WINTER_FUNC_BEFORE_EACH ::
     (bodies ++ [ProcEvent.hook WINTER_FUNC_AFTER_EACH]), 0)

/-! ## CLI driver (src/include/winter/test.h, `_winter_parse_args`) -/

/-- The recognised options, in the order of the `_WINTER_OPT_*` enum (which
is the scan order of the matching loop). -/
inductive OptId where
  | version : OptId
  | help : OptId
  | list : OptId
  | color : OptId
  | debug : OptId
  | rerun : OptId
  | timeout : OptId
deriving DecidableEq

/-- Scan order of the option table. -/
def opt_order : List OptId :=
  [OptId.version, OptId.help, OptId.list, OptId.color, OptId.debug,
   OptId.rerun, OptId.timeout]

/-- Long names of the options. -/
def opt_long_name : OptId → List Char
  | OptId.version => ['v', 'e', 'r', 's', 'i', 'o', 'n']
  | OptId.help => ['h', 'e', 'l', 'p']
  | OptId.list => ['l', 'i', 's', 't']
  | OptId.color => ['c', 'o', 'l', 'o', 'r']
  | OptId.debug => ['d', 'e', 'b', 'u', 'g']
  | OptId.rerun => ['r', 'e', 'r', 'u', 'n']
  | OptId.timeout => ['t', 'i', 'm', 'e', 'o', 'u', 't']

/-- Short names; the value-taking `debug` option has short name `'\0'`. -/
def opt_short_name : OptId → Char
  | OptId.version => 'v'
  | OptId.help => 'h'
  | OptId.list => 'l'
  | OptId.color => 'c'
  | OptId.debug => Char.ofNat 0
  | OptId.rerun => 'r'
  | OptId.timeout => 't'

/-- Whether the option is a boolean flag (all but `debug`). -/
def opt_is_flag : OptId → Bool
  | OptId.debug => false
  | _ => true

/-- A boolean flag slot of the `opts` array: the `overwritten` marker and the
current `bool_val`. -/
structure FlagOpt where
  overwritten : Bool
  val : Bool
deriving DecidableEq

/-- The mutable state built by `_winter_parse_args`: the option slots and the
collected selection patterns. -/
structure OptState where
  version : FlagOpt
  help : FlagOpt
  list : FlagOpt
  color : FlagOpt
  rerun : FlagOpt
  timeout : FlagOpt
  debug : Option (List Char)
  patterns : List (List Char)
deriving DecidableEq

/-- The option slots before parsing: every flag false and not overwritten,
no debug pattern, no selection patterns. -/
def init_opts : OptState :=
  { version := ⟨false, false⟩, help := ⟨false, false⟩, list := ⟨false, false⟩,
    color := ⟨false, false⟩, rerun := ⟨false, false⟩, timeout := ⟨false, false⟩,
    debug := none, patterns := [] }

/-- Reading index 0 of a C string: the NUL terminator when the modelled list
is empty. -/
def c0 (s : List Char) : Char := s.headD (Char.ofNat 0)

/-- Store `v` into the flag slot of `id`, marking it overwritten
(`opt->overwritten = true; opt->bool_val = v`). -/
def set_flag (s : OptState) (id : OptId) (v : Bool) : OptState :=
  match id with
  | OptId.version => { s with version := ⟨true, v⟩ }
  | OptId.help => { s with help := ⟨true, v⟩ }
  | OptId.list => { s with list := ⟨true, v⟩ }
  | OptId.color => { s with color := ⟨true, v⟩ }
  | OptId.rerun => { s with rerun := ⟨true, v⟩ }
  | OptId.timeout => { s with timeout := ⟨true, v⟩ }
  | OptId.debug => s

/-- The first option of the table matching the (already stripped) argument
name, long names by `strcmp`, short names by comparing the first byte. -/
def find_opt (is_long : Bool) (name : List Char) : Option OptId :=
  opt_order.find? (fun id =>
    if is_long then decide (opt_long_name id = name)
    else decide (opt_short_name id = c0 name))

/-- Embedding of the argument loop of `_winter_parse_args` over
`argv[1..]`: bare tokens become patterns, `--name` / `--no-name` / `-x`
tokens update the option slots, the value-taking `debug` option consumes the
next token, and an unknown option or a missing value is a fatal error. -/
def parse_loop (s : OptState) : List (List Char) → Except Unit OptState
  | [] => Except.ok s
  | arg :: rest =>
    if c0 arg ≠ '-' then
      parse_loop { s with patterns := s.patterns ++ [arg] } rest
    else
      let is_long := c0 (arg.drop 1) = '-'
      let name1 := if is_long then arg.drop 2 else arg.drop 1
      let inverted := is_long && decide (name1.take 3 = ['n', 'o', '-'])
      let name := if inverted then name1.drop 3 else name1
      match find_opt is_long name with
      | none => Except.error ()
      | some id =>
        if opt_is_flag id then
          parse_loop (set_flag s id (!inverted)) rest
        else
          match rest with
          | [] => Except.error ()
          | v :: rest2 => parse_loop { s with debug := some v } rest2

/-- The action selected at the end of `_winter_parse_args`: each of the first
four exits the process before anything else runs; `run` carries the resolved
color, rerun and timeout options and the selection patterns of a normal
run. -/
inductive CliOutcome where
  | helpExit : CliOutcome
  | versionExit : CliOutcome
  | listExit : CliOutcome
  | debugExit (pattern : List Char) : CliOutcome
  | run (color rerun timeoutOn : Bool) (patterns : List (List Char)) : CliOutcome
deriving DecidableEq

/-- Embedding of the tail of `_winter_parse_args` (lines 695-720): the
mutually exclusive action checks in order help, version, list, debug, and —
only on the normal-run path — the `_winter_opt_default` resolution, where
`isTty` is `isatty(fileno(_winter.print.file))` and `noColorEnv` is
`getenv("NO_COLOR") != nullptr`. -/
def resolve_outcome (isTty noColorEnv : Bool) (s : OptState) : CliOutcome :=
  if s.help.val then CliOutcome.helpExit
  else if s.version.val then CliOutcome.versionExit
  else if s.list.val then CliOutcome.listExit
  else
    match s.debug with
    | some p => CliOutcome.debugExit p
    | none =>
      CliOutcome.run
        (if s.color.overwritten then s.color.val else (isTty && !noColorEnv))
        s.rerun.val
        (if s.timeout.overwritten then s.timeout.val else true)
        s.patterns

/-- Full embedding of `_winter_parse_args`. -/
def parse_args (isTty noColorEnv : Bool) (args : List (List Char)) :
    Except Unit CliOutcome :=
  (parse_loop init_opts args).map (resolve_outcome isTty noColorEnv)

/-! ## The per-thread error trace (src/src/error.c) -/

/-- `MAX_ERRORS`, the frame capacity of the per-thread trace. -/
def MAX_ERRORS : Nat := 32

/-- `sizeof(frame->msg)`, the message buffer size. -/
def MSG_CAP : Nat := 128

/-- An `error_frame_t`. -/
structure Frame where
  file : List Char
  func : List Char
  line : Nat
  code : Int
  msg : List Char
deriving DecidableEq

/-- The per-thread error state: the stored frames (`error_list` up to
`error_count`, so `frames.length` is `error_count`) and `error_code`. -/
structure ErrorState where
  frames : List Frame
  code : Int
deriving DecidableEq

/-- The zero-initialised thread-local state. -/
def err_init : ErrorState := { frames := [], code := 0 }

/-- Embedding of `error_push`: always set `error_code`; append a fresh frame
with an empty message only when the trace is below capacity. -/
def error_push (s : ErrorState) (file func : List Char) (line : Nat) (code : Int) :
    ErrorState :=
  let s1 := { s with code := code }
  if s1.frames.length ≥ MAX_ERRORS then s1
  else { s1 with
    frames := s1.frames ++
      [{ file := file, func := func, line := line, code := code, msg := [] }] }

/-- Embedding of `error_trace_length`: `min(error_count, MAX_ERRORS)`. -/
def error_trace_length (s : ErrorState) : Nat :=
  min s.frames.length MAX_ERRORS

/-- Embedding of `error_trace_nth`: note the guard is
`n >= error_count || error_count >= MAX_ERRORS`, so once the trace is full
every index yields `none`. -/
def error_trace_nth (s : ErrorState) (n : Nat) : Option Frame :=
  if n ≥ s.frames.length ∨ s.frames.length ≥ MAX_ERRORS then none
  else s.frames.get? n

/-- Embedding of `error_get_code`. -/
def error_get_code (s : ErrorState) : Int := s.code

/-- Embedding of `error_append_message`: fetch the last frame through
`error_trace_nth(error_count - 1)` (a `none` result makes the call a no-op),
then append at most the remaining `sizeof(msg) - 1 - strlen(msg)` bytes
(`vsnprintf` keeps one byte for the terminator).  In C `error_count - 1`
underflows to `UINT32_MAX` when the trace is empty, which also makes
`error_trace_nth` return null; Nat subtraction gives `0`, for which the
`0 ≥ 0` bound check returns `none` as well. -/
def error_append_message (s : ErrorState) (text : List Char) : ErrorState :=
  match error_trace_nth s (s.frames.length - 1) with
  | none => s
  | some frame =>
    if frame.msg.length ≥ MSG_CAP then s
    else
      { s with
        frames := s.frames.set (s.frames.length - 1)
          { frame with msg := frame.msg ++ text.take (MSG_CAP - 1 - frame.msg.length) } }

/-- Embedding of `error_clear`. -/
def error_clear (_s : ErrorState) : ErrorState := { frames := [], code := 0 }

/-- One call of the error-trace interface. -/
inductive ErrOp where
  | push (file func : List Char) (line : Nat) (code : Int) : ErrOp
  | append (text : List Char) : ErrOp
  | clear : ErrOp
deriving DecidableEq

/-- Apply one interface call to the thread-local state. -/
def error_apply (s : ErrorState) : ErrOp → ErrorState
  | ErrOp.push file func line code => error_push s file func line code
  | ErrOp.append text => error_append_message s text
  | ErrOp.clear => error_clear s

/-- Run a sequence of interface calls from a given state. -/
def error_run : List ErrOp → ErrorState → ErrorState
  | [], s => s
  | op :: ops, s => error_run ops (error_apply s op)

/-- The state reached from the cleared state by 32 consecutive `error_push`
calls: the trace is exactly at capacity. -/
def err_full : ErrorState :=
  error_run (List.replicate 32 (ErrOp.push [] [] 0 1)) err_init

/-! ## The thread barrier (src/include/winter/test.h,
`_winter_thread_syncronize`)

The mutex serialises the bodies of `_winter_thread_syncronize`, so every
execution is an interleaving of atomic monitor actions: an *arrival* (the
locked section from reading `generation` through either the broadcast or the
first `pthread_cond_wait`) and a *wakeup* (one iteration of the
`while (generation == observed)` loop, spurious wakeups included).  The
`arrivals` field is ghost history counting the arrival events per observed
generation. -/

/-- Where a worker thread stands with respect to the barrier: outside any
`synchronize()` call (before entry, or released), or blocked on the condition
variable having observed generation `observed` on arrival. -/
inductive Phase where
  | outside : Phase
  | waiting (observed : Nat) : Phase
deriving DecidableEq

/-- The barrier state of one unit execution: the `waiting` and `generation`
counters of `_winter.synchronization`, one `Phase` per worker thread, and the
ghost arrival counters. -/
structure SyncState where
  waiting : Nat
  generation : Nat
  phases : List Phase
  arrivals : Nat → Nat

/-- The state set up by `_winter_process_entry` for `T` worker threads:
`waiting = 0`, `generation = 0`, every thread outside. -/
def sync_init (T : Nat) : SyncState :=
  { waiting := 0, generation := 0, phases := List.replicate T Phase.outside,
    arrivals := fun _ => 0 }

/-- A monitor action of thread `i`: entering `synchronize()` (an arrival), or
returning from `pthread_cond_wait` (a wakeup, genuine or spurious). -/
inductive SyncAct where
  | arrive (i : Nat) : SyncAct
  | wake (i : Nat) : SyncAct

/-- Ghost update: record one more arrival for the current generation. -/
def bump_arrivals (s : SyncState) : Nat → Nat :=
  fun g => if g = s.generation then s.arrivals g + 1 else s.arrivals g

/-- One atomic monitor action of `_winter_thread_syncronize` with
`_winter.synchronization.threads = T`.  An arrival reads `generation`, then
either completes the round (`++waiting == threads`: reset `waiting`,
increment `generation`, broadcast, return) or increments `waiting` and blocks.
A wakeup of a blocked thread re-checks the loop condition: it returns from
the call when `generation` moved past the value it observed and goes back to
sleep unchanged otherwise.  `none` means the action is not enabled. -/
def sync_step (T : Nat) (a : SyncAct) (s : SyncState) : Option SyncState :=
  match a with
  | SyncAct.arrive i =>
    match s.phases.get? i with
    | some Phase.outside =>
      if s.waiting + 1 = T then
        some { waiting := 0, generation := s.generation + 1, phases := s.phases,
               arrivals := bump_arrivals s }
      else
        some { waiting := s.waiting + 1, generation := s.generation,
               phases := s.phases.set i (Phase.waiting s.generation),
               arrivals := bump_arrivals s }
    | _ => none
  | SyncAct.wake i =>
    match s.phases.get? i with
    | some (Phase.waiting g) =>
      if s.generation = g then some s
      else some { s with phases := s.phases.set i Phase.outside }
    | _ => none

/-- States reachable by any interleaving of `synchronize()` calls by the
worker threads of one unit execution. -/
inductive SyncReachable (T : Nat) : SyncState → Prop where
  | init : SyncReachable T (sync_init T)
  | step (a : SyncAct) (s s' : SyncState) :
      SyncReachable T s → sync_step T a s = some s' → SyncReachable T s'

/-- The inductive barrier invariant: every blocked thread observed a
generation no newer than the current one; every completed generation saw
exactly `T` arrivals; the arrivals of the current generation are the
`waiting` count; future generations have no arrivals yet. -/
def SyncInv (T : Nat) (s : SyncState) : Prop :=
  (∀ i g, s.phases.get? i = some (Phase.waiting g) → g ≤ s.generation) ∧
  (∀ g, g < s.generation → s.arrivals g = T) ∧
  s.arrivals s.generation = s.waiting ∧
  (∀ g, s.generation < g → s.arrivals g = 0)

/-! ## Concrete data for the malformed-glob scenario -/

/-- A concrete `fnmatch` oracle whose only malformed glob is `"["`. -/
def fnmDemo : List Char → List Char → FnmRes :=
  fun glob _name => if glob = ['['] then FnmRes.err else FnmRes.nomatch

/-- A registry with one suite `"a"` holding one test `"t"`. -/
def demoSuites : List WSuite := [{ name := ['a'], tests := [['t']] }]

/-- The pattern list `["a", "n:["]`: the second pattern carries the malformed
glob `"["` under suite part `"n"`, which matches no registered suite. -/
def demoPatterns : List (List Char) := [['a'], ['n', ':', '[']]

/-- An outcome oracle under which every executed unit passes. -/
def demoOutcome : List Char → List Char → Bool := fun _ _ => true

/-! ## Helper lemmas -/

theorem take_takeWhile_len (q : Char → Bool) (l : List Char) :
    l.take (l.takeWhile q).length = l.takeWhile q := by
  induction l with
  | nil => rfl
  | cons c rest ih =>
    by_cases hc : q c
    · simp [List.takeWhile, hc, List.take, ih]
    · simp [List.takeWhile, hc]

theorem sepLen_eq_suitePart_len (p : List Char) :
    sepLen p = (suitePart p).length := by
  induction p with
  | nil => rfl
  | cons c rest ih =>
    by_cases hc : c = ':'
    · simp [sepLen, strchrIdx, suitePart, hc]
    · have h1 : strchrIdx (c :: rest) ':' = (strchrIdx rest ':').map (fun i => i + 1) := by
        simp [strchrIdx, hc]
      have h2 : suitePart (c :: rest) = c :: suitePart rest := by
        simp [suitePart, hc]
      rw [sepLen, h1, h2]
      cases h : strchrIdx rest ':' with
      | none =>
        have hl : sepLen rest = rest.length := by rw [sepLen, h]
        show (c :: rest).length = (c :: suitePart rest).length
        simp only [List.length_cons]
        omega
      | some i =>
        have hl : sepLen rest = i := by rw [sepLen, h]
        show i + 1 = (c :: suitePart rest).length
        simp only [List.length_cons]
        omega

theorem take_suitePart (p : List Char) : p.take (suitePart p).length = suitePart p :=
  take_takeWhile_len _ p

theorem match_suite_iff (p n : List Char) :
    match_suite p n = true ↔ suitePart p = n := by
  unfold match_suite
  rw [sepLen_eq_suitePart_len, take_suitePart]
  simp only [Bool.and_eq_true, decide_eq_true_eq]
  constructor
  · exact fun h => h.2
  · intro h
    exact ⟨by rw [h], h⟩

theorem unit_enabled_loop_iff (fnm : List Char → List Char → FnmRes)
    (patterns : List (List Char)) (suite test : List Char)
    (hno : ∀ q ∈ patterns, match_test fnm q test ≠ Except.error ()) :
    unit_enabled_loop fnm patterns suite test = Except.ok true ↔
      ∃ q ∈ patterns, suitePart q = suite ∧ match_test fnm q test = Except.ok true := by
  induction patterns with
  | nil => simp [unit_enabled_loop]
  | cons p rest ih =>
    have hno' : ∀ q ∈ rest, match_test fnm q test ≠ Except.error () :=
      fun q hq => hno q (List.mem_cons_of_mem p hq)
    by_cases hs : match_suite p suite = true
    · cases hmt : match_test fnm p test with
      | error e =>
        exact absurd (by cases e; exact hmt) (hno p (List.mem_cons_self p rest))
      | ok b =>
        cases b with
        | true =>
          simp only [unit_enabled_loop, if_pos hs, hmt]
          constructor
          · intro _
            exact ⟨p, List.mem_cons_self p rest, (match_suite_iff p suite).mp hs, hmt⟩
          · intro _
            trivial
        | false =>
          simp only [unit_enabled_loop, if_pos hs, hmt]
          rw [ih hno']
          constructor
          · rintro ⟨q, hq, hqs, hqt⟩
            exact ⟨q, List.mem_cons_of_mem p hq, hqs, hqt⟩
          · rintro ⟨q, hq, hqs, hqt⟩
            rcases List.mem_cons.mp hq with rfl | hq'
            · rw [hqt] at hmt
              cases hmt
            · exact ⟨q, hq', hqs, hqt⟩
    · simp only [unit_enabled_loop, if_neg hs]
      rw [ih hno']
      constructor
      · rintro ⟨q, hq, hqs, hqt⟩
        exact ⟨q, List.mem_cons_of_mem p hq, hqs, hqt⟩
      · rintro ⟨q, hq, hqs, hqt⟩
        rcases List.mem_cons.mp hq with rfl | hq'
        · exact absurd ((match_suite_iff q suite).mpr hqs) hs
        · exact ⟨q, hq', hqs, hqt⟩

/-- Claim C3: the suite part of a pattern (its prefix before the first
colon) matches a suite name iff the two are byte-for-byte equal; a pattern
without a colon matches every test name, and one with a glob part matches a
test name iff the shell-glob match succeeds; with no patterns every suite
and every test is selected; otherwise a unit is enabled iff some supplied
pattern's suite part matches its suite name and that pattern's test part
matches its test name. -/
theorem C3_pattern_selection (fnm : List Char → List Char → FnmRes)
    (patterns : List (List Char)) (suite test p n : List Char)
    (hno : ∀ q ∈ patterns, match_test fnm q test ≠ Except.error ()) :
    (match_suite p n = true ↔ suitePart p = n) ∧
    (strchrIdx p ':' = none → match_test fnm p n = Except.ok true) ∧
    (∀ i, strchrIdx p ':' = some i → fnm (p.drop (i + 1)) n ≠ FnmRes.err →
      (match_test fnm p n = Except.ok true ↔ fnm (p.drop (i + 1)) n = FnmRes.ok)) ∧
    (is_suite_enabled [] n = true ∧ is_unit_enabled fnm [] suite test = Except.ok true) ∧
    (patterns ≠ [] →
      (is_unit_enabled fnm patterns suite test = Except.ok true ↔
        ∃ q ∈ patterns, suitePart q = suite ∧ match_test fnm q test = Except.ok true)) := by
  refine ⟨match_suite_iff p n, ?_, ?_, ⟨rfl, rfl⟩, ?_⟩
  · intro h
    rw [match_test, h]
  · intro i hi hne
    rw [match_test, hi]
    cases hf : fnm (p.drop (i + 1)) n <;> simp [hf] at hne ⊢
  · intro hne
    rw [is_unit_enabled, if_neg (by simpa [List.isEmpty_iff] using hne)]
    exact unit_enabled_loop_iff fnm patterns suite test hno

theorem C3_pattern_selection_witness :
    (∀ q ∈ ([['m'], ['m', ':', 'x']] : List (List Char)),
        match_test fnmDemo q ['t'] ≠ Except.error ()) ∧
    (match_suite ['m', ':', 'x'] ['m'] = true ↔ suitePart ['m', ':', 'x'] = ['m']) := by
  have h : ∀ q ∈ ([['m'], ['m', ':', 'x']] : List (List Char)),
      match_test fnmDemo q ['t'] ≠ Except.error () := by
    intro q hq
    rcases List.mem_cons.mp hq with rfl | hq'
    · intro hc
      cases hc
    · rcases List.mem_cons.mp hq' with rfl | hq''
      · intro hc
        cases hc
      · cases hq''
  exact ⟨h,
    (C3_pattern_selection fnmDemo [['m'], ['m', ':', 'x']] ['m'] ['t']
      ['m', ':', 'x'] ['m'] h).1⟩

/-- Claim C2: a child exit code of 0 yields success with no diagnostic line;
the sentinel 255 yields failure with no extra line; any other non-zero code
yields failure with a line naming the code; termination by a signal yields
failure with a line naming the signal. -/
theorem C2_exit_classification (code sig : Nat) (h0 : code ≠ 0)
    (h255 : code ≠ WINTER_EXIT_FAILURE) :
    classify_exit (ChildStatus.exited 0) = (true, ExitDiag.noLine) ∧
    classify_exit (ChildStatus.exited WINTER_EXIT_FAILURE) = (false, ExitDiag.noLine) ∧
    classify_exit (ChildStatus.exited code) = (false, ExitDiag.exitCodeLine code) ∧
    classify_exit (ChildStatus.signaled sig) = (false, ExitDiag.signalLine sig) := by
  refine ⟨rfl, rfl, ?_, rfl⟩
  rw [classify_exit, if_pos h0, if_pos h255]

theorem C2_exit_classification_witness :
    (7 : Nat) ≠ 0 ∧ (7 : Nat) ≠ WINTER_EXIT_FAILURE ∧
    classify_exit (ChildStatus.exited 7) = (false, ExitDiag.exitCodeLine 7) :=
  ⟨by decide, by decide,
   (C2_exit_classification 7 9 (by decide) (by decide)).2.2.1⟩

theorem loop_skips_continuing (timeoutOn : Bool) (timeout : ℚ) (contOk killOk : Bool)
    (pre rest : List PollEvent)
    (h : ∀ e ∈ pre, poll_continues timeoutOn timeout e = true) :
    unit_execute_loop timeoutOn timeout contOk killOk (pre ++ rest) =
      unit_execute_loop timeoutOn timeout contOk killOk rest := by
  induction pre with
  | nil => rfl
  | cons e pre ih =>
    have he := h e (List.mem_cons_self e pre)
    have h' : ∀ x ∈ pre, poll_continues timeoutOn timeout x = true :=
      fun x hx => h x (List.mem_cons_of_mem e hx)
    cases e with
    | exited st => simp [poll_continues] at he
    | running elapsed =>
      simp only [poll_continues, Bool.not_eq_eq_eq_not, Bool.not_true] at he
      simp only [List.cons_append, unit_execute_loop, he, Bool.false_eq_true, if_false]
      exact ih h'
    | waitErrIntr =>
      simp only [List.cons_append, unit_execute_loop]
      exact ih h'
    | waitErrFatal => simp [poll_continues] at he

theorem loop_no_timeout_when_off (timeout : ℚ) (contOk killOk : Bool)
    (events : List PollEvent) (ks : List KillStep) :
    unit_execute_loop false timeout contOk killOk events ≠ ExecResult.timedOut ks := by
  induction events with
  | nil => simp [unit_execute_loop]
  | cons e rest ih =>
    cases e with
    | exited st => simp [unit_execute_loop]
    | running elapsed => simpa [unit_execute_loop] using ih
    | waitErrIntr => simpa [unit_execute_loop] using ih
    | waitErrFatal => simp [unit_execute_loop]

/-- Claim C4: with timeout enforcement on, as soon as a poll observes the
child still running with elapsed time beyond the test's timeout, the loop
terminates with a timeout: `_winter_kill_process` runs (on its success path
`SIGCONT`, then `SIGKILL`, then the reaping `waitpid`), the timeout is
reported and the unit counts as failed; with enforcement off no timeout
result is ever produced and the same schedule runs to the child's own
completion. -/
theorem C4_timeout_enforcement (timeout elapsed : ℚ) (contOk killOk : Bool)
    (pre preB post events : List PollEvent) (st : ChildStatus) (ks : List KillStep)
    (hpre : ∀ e ∈ pre, poll_continues true timeout e = true)
    (hover : timeout < elapsed)
    (hpreB : ∀ e ∈ preB, poll_continues false timeout e = true) :
    unit_execute_loop true timeout contOk killOk (pre ++ PollEvent.running elapsed :: post) =
      ExecResult.timedOut (kill_process contOk killOk) ∧
    exec_outcome (ExecResult.timedOut (kill_process contOk killOk)) = some false ∧
    kill_process true true = [KillStep.sendCont, KillStep.sendKill, KillStep.reap] ∧
    unit_execute_loop false timeout contOk killOk events ≠ ExecResult.timedOut ks ∧
    unit_execute_loop false timeout contOk killOk (preB ++ PollEvent.exited st :: post) =
      ExecResult.finished st := by
  refine ⟨?_, rfl, rfl, loop_no_timeout_when_off timeout contOk killOk events ks, ?_⟩
  · rw [loop_skips_continuing true timeout contOk killOk pre _ hpre]
    simp [unit_execute_loop, hover]
  · rw [loop_skips_continuing false timeout contOk killOk preB _ hpreB]
    rfl

theorem C4_timeout_enforcement_witness :
    (∀ e ∈ [PollEvent.running 1, PollEvent.waitErrIntr],
        poll_continues true 5 e = true) ∧
    (5 : ℚ) < 6 ∧
    unit_execute_loop true 5 true true
        ([PollEvent.running 1, PollEvent.waitErrIntr] ++ PollEvent.running 6 :: []) =
      ExecResult.timedOut (kill_process true true) := by
  have h1 : ∀ e ∈ [PollEvent.running 1, PollEvent.waitErrIntr],
      poll_continues true 5 e = true := by
    intro e he
    rcases List.mem_cons.mp he with rfl | he'
    · decide
    · rcases List.mem_cons.mp he' with rfl | he''
      · decide
      · cases he''
  have h2 : (5 : ℚ) < 6 := by norm_num
  have h3 : ∀ e ∈ ([] : List PollEvent), poll_continues false 5 e = true := by
    intro e he
    cases he
  exact ⟨h1, h2,
    (C4_timeout_enforcement 5 6 true true [PollEvent.running 1, PollEvent.waitErrIntr]
      [] [] [] (ChildStatus.exited 0) [] h1 h2 h3).1⟩

theorem filter_length_eq_iff (f : α → Bool) (l : List α) :
    l.length = (l.filter f).length ↔ ∀ x ∈ l, f x = true := by
  induction l with
  | nil => simp
  | cons a l ih =>
    by_cases ha : f a
    · simp only [List.filter_cons, ha, if_pos, List.length_cons, Nat.succ_inj]
      rw [ih]
      simp [ha]
    · simp only [List.filter_cons, ha, Bool.false_eq_true, if_false, List.length_cons]
      have hle := List.length_filter_le f l
      constructor
      · intro h
        omega
      · intro h
        exact absurd (h a (List.mem_cons_self a l)) ha

/-- Claim C5: when the run completes without a fatal configuration error,
the harness exit status is 0 or 1; it is 0 exactly when every executed unit
passed, and any executed unit that failed — even a single one among passing
tests — forces exit status 1. -/
theorem C5_exit_status (fnm : List Char → List Char → FnmRes)
    (patterns : List (List Char)) (outcome : List Char → List Char → Bool)
    (suites : List WSuite) (c : Nat)
    (h : (winter_main fnm patterns outcome suites).2 = Except.ok c) :
    (c = 0 ∨ c = 1) ∧
    (c = 0 ↔ ∀ u ∈ (winter_main fnm patterns outcome suites).1, u.2.2 = true) ∧
    (∀ u ∈ (winter_main fnm patterns outcome suites).1, u.2.2 = false → c = 1) := by
  have hfst : (winter_main fnm patterns outcome suites).1 =
      (run_suites fnm patterns outcome suites).1 := by
    rw [winter_main]
    split <;> rfl
  rw [winter_main] at h
  by_cases hf : (run_suites fnm patterns outcome suites).2
  · simp [hf] at h
  · simp only [hf, Bool.false_eq_true, if_false, Except.ok.injEq] at h
    rw [hfst]
    subst h
    set tr := (run_suites fnm patterns outcome suites).1 with htr
    by_cases hc : tr.length = (List.filter (fun u => u.2.2) tr).length
    · have hall := (filter_length_eq_iff _ tr).mp hc
      simp only [if_pos hc]
      exact ⟨Or.inl trivial, ⟨fun _ => hall, fun _ => trivial⟩,
        fun u hu hfail => absurd (hall u hu) (by simp [hfail])⟩
    · simp only [if_neg hc]
      refine ⟨Or.inr trivial, ⟨fun h01 => absurd h01 one_ne_zero, ?_⟩,
        fun u hu hfail => trivial⟩
      intro hall
      exact absurd ((filter_length_eq_iff _ tr).mpr hall) hc

theorem C5_exit_status_witness :
    (winter_main fnmDemo demoPatterns demoOutcome demoSuites).2 = Except.ok 0 ∧
    ((0 : Nat) = 0 ∨ (0 : Nat) = 1) :=
  ⟨rfl,
   (C5_exit_status fnmDemo demoPatterns demoOutcome demoSuites 0 rfl).1⟩

/-- Claim C6, counterexample to the claim as stated: the supplied patterns
contain `"n:["` whose test-glob `"["` is malformed (the `fnmatch` oracle
errors on it), yet the run is not aborted at all — it completes with exit
status 0 after executing (and printing a result for) the test `"a/t"`,
because pattern selection only evaluates a glob lazily, per candidate unit,
and the suite part `"n"` matches no registered suite. -/
theorem C6_counterexample :
    ['n', ':', '['] ∈ demoPatterns ∧
    strchrIdx ['n', ':', '['] ':' = some 1 ∧
    List.drop 2 ['n', ':', '['] = ['['] ∧
    fnmDemo ['['] ['t'] = FnmRes.err ∧
    winter_main fnmDemo demoPatterns demoOutcome demoSuites =
      ([(['a'], ['t'], true)], Except.ok 0) := by
  refine ⟨?_, rfl, rfl, rfl, rfl⟩
  simp [demoPatterns]

theorem run_tests_fatal (fnm : List Char → List Char → FnmRes)
    (patterns : List (List Char)) (outcome : List Char → List Char → Bool)
    (sname : List Char) (pre post : List (List Char)) (t : List Char)
    (hpre : ∀ u ∈ pre, is_unit_enabled fnm patterns sname u ≠ Except.error ())
    (ht : is_unit_enabled fnm patterns sname t = Except.error ()) :
    run_tests fnm patterns outcome sname (pre ++ t :: post) =
      ((run_tests fnm patterns outcome sname pre).1, true) := by
  induction pre with
  | nil =>
    simp only [List.nil_append, run_tests, ht]
  | cons u pre ih =>
    have hu := hpre u (List.mem_cons_self u pre)
    have hpre' : ∀ x ∈ pre, is_unit_enabled fnm patterns sname x ≠ Except.error () :=
      fun x hx => hpre x (List.mem_cons_of_mem u hx)
    cases hcase : is_unit_enabled fnm patterns sname u with
    | error e =>
      cases e
      exact absurd hcase hu
    | ok b =>
      cases b with
      | false =>
        simp only [List.cons_append, run_tests, hcase]
        exact ih hpre'
      | true =>
        simp only [List.cons_append, run_tests, hcase, List.append_eq]
        rw [ih hpre']

/-- Claim C6, amended: a malformed test-glob aborts the whole run with a
fatal configuration error at the moment pattern selection first evaluates it
against a candidate test name.  The unit whose selection check hit the error
and every unit after it never execute and the malformed glob is never
recorded as a per-test failure (the run yields no exit status at all), but
units selected before that moment have already executed. -/
theorem C6_fatal_abort (fnm : List Char → List Char → FnmRes)
    (patterns : List (List Char)) (outcome : List Char → List Char → Bool)
    (sname : List Char) (pre post : List (List Char)) (t : List Char)
    (hs : is_suite_enabled patterns sname = true)
    (hpre : ∀ u ∈ pre, is_unit_enabled fnm patterns sname u ≠ Except.error ())
    (ht : is_unit_enabled fnm patterns sname t = Except.error ()) :
    winter_main fnm patterns outcome [{ name := sname, tests := pre ++ t :: post }] =
      ((run_tests fnm patterns outcome sname pre).1.map (fun u => (sname, u.1, u.2)),
       Except.error ()) ∧
    run_tests fnm patterns outcome sname (pre ++ t :: post) =
      ((run_tests fnm patterns outcome sname pre).1, true) := by
  have hrt := run_tests_fatal fnm patterns outcome sname pre post t hpre ht
  refine ⟨?_, hrt⟩
  rw [winter_main, run_suites]
  simp only [hs, if_true, hrt]

theorem C6_fatal_abort_witness :
    is_suite_enabled [['a', ':', '[']] ['a'] = true ∧
    is_unit_enabled fnmDemo [['a', ':', '[']] ['a'] ['t'] = Except.error () ∧
    winter_main fnmDemo [['a', ':', '[']] demoOutcome
        [{ name := ['a'], tests := [['t']] }] = ([], Except.error ()) := by
  have h1 : is_suite_enabled [['a', ':', '[']] ['a'] = true := rfl
  have h2 : is_unit_enabled fnmDemo [['a', ':', '[']] ['a'] ['t'] = Except.error () := rfl
  have h0 : ∀ u ∈ ([] : List (List Char)),
      is_unit_enabled fnmDemo [['a', ':', '[']] ['a'] u ≠ Except.error () :=
    fun u hu => absurd hu (List.not_mem_nil u)
  exact ⟨h1, h2,
    (C6_fatal_abort fnmDemo [['a', ':', '[']] demoOutcome ['a'] [] [] ['t']
      h1 h0 h2).1⟩

theorem count_body_range (id i n : Nat) :
    ((List.range n).map (fun k => ProcEvent.body id k)).count (ProcEvent.body id i) =
      if i < n then 1 else 0 := by
  induction n with
  | zero => simp
  | succ n ih =>
    rw [List.range_succ, List.map_append, List.count_append, ih]
    have hone : (List.map (fun k => ProcEvent.body id k) [n]).count (ProcEvent.body id i) =
        if i = n then 1 else 0 := by
      by_cases h : i = n
      · subst h
        simp
      · have hne : ¬(ProcEvent.body id n = ProcEvent.body id i) := by
          intro hc
          cases hc
          exact h rfl
        simp [List.count_cons, hne, h]
    rw [hone]
    by_cases h1 : i < n
    · rw [if_pos h1, if_pos (Nat.lt_succ_of_lt h1), if_neg (Nat.ne_of_lt h1)]
    · by_cases h2 : i = n
      · subst h2
        rw [if_neg h1, if_pos (Nat.lt_succ_self i), if_pos rfl]
      · rw [if_neg h1, if_neg h2, if_neg (by omega)]

theorem process_entry_events (threads testId : Nat) :
    (process_entry threads testId).1 =
      ProcEvent.hook WINTER_FUNC_BEFORE_EACH ::
        ((List.range threads).map (fun k => ProcEvent.body testId k) ++
         [ProcEvent.hook WINTER_FUNC_AFTER_EACH]) := by
  simp only [process_entry]
  by_cases h1 : threads = 1
  · subst h1
    rfl
  · rw [if_neg h1]

/-- Claim C7: inside the isolated child process the suite dispatch runs the
before-each hook first and the after-each hook last, the test body runs
exactly once for every thread index below the test's thread count (directly
with index 0 when `threads == 1`, on the spawned workers otherwise), nothing
else runs, and the child exits with status 0 when nothing failed. -/
theorem C7_process_entry (threads testId : Nat) :
    (process_entry threads testId).2 = 0 ∧
    (process_entry threads testId).1.length = threads + 2 ∧
    (process_entry threads testId).1.head? = some (ProcEvent.hook WINTER_FUNC_BEFORE_EACH) ∧
    (process_entry threads testId).1.getLast? = some (ProcEvent.hook WINTER_FUNC_AFTER_EACH) ∧
    (∀ i, (process_entry threads testId).1.count (ProcEvent.body testId i) =
      if i < threads then 1 else 0) := by
  refine ⟨rfl, ?_, ?_, ?_, ?_⟩
  · rw [process_entry_events]
    simp
  · rw [process_entry_events]
    rfl
  · rw [process_entry_events, ← List.cons_append, List.getLast?_concat]
  · intro i
    rw [process_entry_events]
    have h1 : ¬(ProcEvent.body testId i = ProcEvent.hook WINTER_FUNC_BEFORE_EACH) := by
      intro hc
      cases hc
    have h2 : ¬(ProcEvent.body testId i = ProcEvent.hook WINTER_FUNC_AFTER_EACH) := by
      intro hc
      cases hc
    simp only [List.count_cons, List.count_append, List.count_singleton, List.count_nil,
      count_body_range, beq_iff_eq, h1, h2, if_false]
    simp [h1, h2]

/-- Claim C8: after the argument loop succeeds, exactly one action is
selected with precedence help > version > list > single-test debug > normal
run, and on the normal-run path an unset color option defaults to true iff
the output stream is a TTY and `NO_COLOR` is absent, while an unset timeout
option defaults to true. -/
theorem C8_cli_precedence_defaults (isTty noColorEnv : Bool)
    (args : List (List Char)) (s : OptState)
    (hparse : parse_loop init_opts args = Except.ok s) :
    (resolve_outcome isTty noColorEnv s = CliOutcome.helpExit ↔ s.help.val = true) ∧
    (resolve_outcome isTty noColorEnv s = CliOutcome.versionExit ↔
      (s.help.val = false ∧ s.version.val = true)) ∧
    (resolve_outcome isTty noColorEnv s = CliOutcome.listExit ↔
      (s.help.val = false ∧ s.version.val = false ∧ s.list.val = true)) ∧
    (∀ p, resolve_outcome isTty noColorEnv s = CliOutcome.debugExit p ↔
      (s.help.val = false ∧ s.version.val = false ∧ s.list.val = false ∧
       s.debug = some p)) ∧
    (s.help.val = false → s.version.val = false → s.list.val = false →
      s.debug = none →
      resolve_outcome isTty noColorEnv s =
        CliOutcome.run
          (if s.color.overwritten then s.color.val else (isTty && !noColorEnv))
          s.rerun.val
          (if s.timeout.overwritten then s.timeout.val else true)
          s.patterns) ∧
    (parse_args isTty noColorEnv args =
      Except.ok (resolve_outcome isTty noColorEnv s)) := by
  cases hh : s.help.val <;> cases hv : s.version.val <;> cases hl : s.list.val <;>
    cases hd : s.debug <;>
    simp [resolve_outcome, hh, hv, hl, hd, parse_args, hparse, Except.map]

theorem C8_cli_witness :
    parse_loop init_opts [] = Except.ok init_opts ∧
    (resolve_outcome true false init_opts = CliOutcome.helpExit ↔
      init_opts.help.val = true) :=
  ⟨rfl, (C8_cli_precedence_defaults true false [] init_opts rfl).1⟩

/-- Claim C9, evaluated at the failing input: after 32 `error_push` calls
from the cleared state the trace length is 32, yet `error_trace_nth` returns
null even for index 0 — the guard `error_count >= MAX_ERRORS` hides every
frame of a full trace although the header documents null only for
out-of-bounds indexes and the `assert_success` printer dereferences the
result unconditionally.  The clear part of the claim does hold: after
`error_clear` the code is 0 and the trace length is 0. -/
theorem C9_full_trace_nth :
    error_trace_length err_full = 32 ∧
    0 < error_trace_length err_full ∧
    error_trace_nth err_full 0 = none ∧
    error_get_code (error_clear err_full) = 0 ∧
    error_trace_length (error_clear err_full) = 0 := by
  decide

theorem err_apply_len_le (s : ErrorState) (op : ErrOp)
    (h : s.frames.length ≤ MAX_ERRORS) :
    (error_apply s op).frames.length ≤ MAX_ERRORS := by
  cases op with
  | push f fn l c =>
    rw [error_apply, error_push]
    by_cases hfull : s.frames.length ≥ MAX_ERRORS
    · simp only [if_pos hfull]
      exact h
    · simp only [if_neg hfull, List.length_append, List.length_cons, List.length_nil]
      omega
  | append t =>
    rw [error_apply, error_append_message]
    cases hn : error_trace_nth s (s.frames.length - 1) with
    | none => exact h
    | some frame =>
      by_cases hm : frame.msg.length ≥ MSG_CAP
      · simp only [if_pos hm]
        exact h
      · simp only [if_neg hm, List.length_set]
        exact h
  | clear =>
    simp [error_apply, error_clear, MAX_ERRORS]

theorem error_run_len_le (ops : List ErrOp) (s : ErrorState)
    (h : s.frames.length ≤ MAX_ERRORS) :
    (error_run ops s).frames.length ≤ MAX_ERRORS := by
  induction ops generalizing s with
  | nil => exact h
  | cons op ops ih => exact ih (error_apply s op) (err_apply_len_le s op h)

/-- Claim C10: `error_push` always sets the thread's current error code,
even at capacity; when the trace already holds `MAX_ERRORS` (32) frames no
new frame is recorded; and under every sequence of push, append-message and
clear operations from the cleared state the number of recorded frames never
exceeds 32. -/
theorem C10_push_capacity (s : ErrorState) (f fn : List Char) (l : Nat) (c : Int)
    (ops : List ErrOp) (hc : c ≠ 0) :
    error_get_code (error_push s f fn l c) = c ∧
    (s.frames.length = MAX_ERRORS → (error_push s f fn l c).frames = s.frames) ∧
    (error_run ops err_init).frames.length ≤ MAX_ERRORS := by
  refine ⟨?_, ?_, error_run_len_le ops err_init (by simp [err_init])⟩
  · rw [error_push]
    by_cases hfull : s.frames.length ≥ MAX_ERRORS
    · simp only [if_pos hfull]
      rfl
    · simp only [if_neg hfull]
      rfl
  · intro hlen
    rw [error_push]
    simp only [if_pos (le_of_eq hlen.symm)]

theorem C10_push_capacity_witness :
    (1 : Int) ≠ 0 ∧ error_get_code (error_push err_init [] [] 0 1) = 1 :=
  ⟨by decide, (C10_push_capacity err_init [] [] 0 1 [] (by decide)).1⟩

theorem sync_inv_init (T : Nat) : SyncInv T (sync_init T) := by
  refine ⟨?_, ?_, rfl, ?_⟩
  · intro i g hg
    rw [sync_init] at hg
    rcases List.get?_eq_some.mp hg with ⟨hb, hget⟩
    rw [List.get_replicate] at hget
    cases hget
  · intro g hg
    cases hg
  · intro g _
    rfl

theorem sync_inv_step (T : Nat) (a : SyncAct) (s s' : SyncState)
    (hs : SyncInv T s) (h : sync_step T a s = some s') : SyncInv T s' := by
  obtain ⟨h1, h2, h3, h4⟩ := hs
  cases a with
  | arrive i =>
    rw [sync_step] at h
    cases hg : s.phases.get? i with
    | none =>
      rw [hg] at h
      cases h
    | some ph =>
      cases ph with
      | waiting g =>
        rw [hg] at h
        cases h
      | outside =>
        rw [hg] at h
        by_cases hlast : s.waiting + 1 = T
        · rw [if_pos hlast] at h
          injection h with h'
          subst h'
          refine ⟨?_, ?_, ?_, ?_⟩
          · intro j g hj
            have hj' : s.phases.get? j = some (Phase.waiting g) := hj
            show g ≤ s.generation + 1
            exact le_trans (h1 j g hj') (Nat.le_succ _)
          · intro g hg2
            have hg2' : g < s.generation + 1 := hg2
            show bump_arrivals s g = T
            rcases Nat.lt_succ_iff_lt_or_eq.mp hg2' with hlt | heq
            · rw [bump_arrivals, if_neg (Nat.ne_of_lt hlt)]
              exact h2 g hlt
            · subst heq
              rw [bump_arrivals, if_pos rfl, h3]
              exact hlast
          · show bump_arrivals s (s.generation + 1) = 0
            rw [bump_arrivals, if_neg (by omega)]
            exact h4 _ (Nat.lt_succ_self _)
          · intro g hg2
            have hg2' : s.generation + 1 < g := hg2
            show bump_arrivals s g = 0
            rw [bump_arrivals, if_neg (by omega)]
            exact h4 g (by omega)
        · rw [if_neg hlast] at h
          injection h with h'
          subst h'
          obtain ⟨hb, -⟩ := List.get?_eq_some.mp hg
          refine ⟨?_, ?_, ?_, ?_⟩
          · intro j g hj
            have hj' : (s.phases.set i (Phase.waiting s.generation)).get? j =
                some (Phase.waiting g) := hj
            show g ≤ s.generation
            by_cases hij : i = j
            · subst hij
              rw [List.get?_set_eq_of_lt _ hb] at hj'
              injection hj' with hj2
              injection hj2 with hj3
              omega
            · rw [List.get?_set_ne _ _ hij] at hj'
              exact h1 j g hj'
          · intro g hlt
            have hlt' : g < s.generation := hlt
            show bump_arrivals s g = T
            rw [bump_arrivals, if_neg (Nat.ne_of_lt hlt')]
            exact h2 g hlt'
          · show bump_arrivals s s.generation = s.waiting + 1
            rw [bump_arrivals, if_pos rfl, h3]
          · intro g hgt
            have hgt' : s.generation < g := hgt
            show bump_arrivals s g = 0
            rw [bump_arrivals, if_neg (by omega)]
            exact h4 g hgt'
  | wake i =>
    rw [sync_step] at h
    cases hg : s.phases.get? i with
    | none =>
      rw [hg] at h
      cases h
    | some ph =>
      cases ph with
      | outside =>
        rw [hg] at h
        cases h
      | waiting g =>
        rw [hg] at h
        have hred : (if s.generation = g then some s
            else some { s with phases := s.phases.set i Phase.outside }) = some s' := h
        by_cases hgen : s.generation = g
        · rw [if_pos hgen] at hred
          injection hred with h'
          subst h'
          exact ⟨h1, h2, h3, h4⟩
        · rw [if_neg hgen] at hred
          injection hred with h'
          subst h'
          obtain ⟨hb, -⟩ := List.get?_eq_some.mp hg
          refine ⟨?_, h2, h3, h4⟩
          intro j g2 hj
          have hj' : (s.phases.set i Phase.outside).get? j =
              some (Phase.waiting g2) := hj
          show g2 ≤ s.generation
          by_cases hij : i = j
          · subst hij
            rw [List.get?_set_eq_of_lt _ hb] at hj'
            simp at hj'
          · rw [List.get?_set_ne _ _ hij] at hj'
            exact h1 j g2 hj'

theorem sync_inv_reachable (T : Nat) (s : SyncState) (h : SyncReachable T s) :
    SyncInv T s := by
  induction h with
  | init => exact sync_inv_init T
  | step a s s' _ hstep ih => exact sync_inv_step T a s s' ih hstep

theorem wake_release (T : Nat) (s2 : SyncState) (j g : Nat)
    (hj : s2.phases.get? j = some (Phase.waiting g)) (hne : s2.generation ≠ g) :
    sync_step T (SyncAct.wake j) s2 =
      some { s2 with phases := s2.phases.set j Phase.outside } := by
  have hm : sync_step T (SyncAct.wake j) s2 =
      (if s2.generation = g then some s2
       else some { s2 with phases := s2.phases.set j Phase.outside }) := by
    rw [sync_step, hj]
  rw [hm, if_neg hne]

theorem wake_spurious (T : Nat) (s2 : SyncState) (j : Nat)
    (hj : s2.phases.get? j = some (Phase.waiting s2.generation)) :
    sync_step T (SyncAct.wake j) s2 = some s2 := by
  have hm : sync_step T (SyncAct.wake j) s2 =
      (if s2.generation = s2.generation then some s2
       else some { s2 with phases := s2.phases.set j Phase.outside }) := by
    rw [sync_step, hj]
  rw [hm, if_pos rfl]

/-- Claim C1: over every interleaving of `synchronize()` calls by the `T`
worker threads of one unit (every reachable barrier state): a wakeup
releases a blocked thread only when the generation counter differs from the
generation it observed on arrival — and then that generation had already
collected exactly `T` arrivals, so no call returns before `T` callers have
arrived for its round; the `T`-th arrival of a round resets the arrived
count to zero, increments the generation counter, completes the `T`
arrivals of the closed round, and leaves every blocked thread releasable by
its pending wakeup; a wakeup of a thread whose observed generation is still
current (for instance a stale broadcast from a previous round reaching a
thread that re-entered for the next round) releases nothing — the thread
goes back to waiting. -/
theorem C1_barrier (T : Nat) (hT : 2 ≤ T) (s : SyncState) (hr : SyncReachable T s) :
    (∀ i g s', s.phases.get? i = some (Phase.waiting g) →
        sync_step T (SyncAct.wake i) s = some s' →
        ((s.generation = g ∧ s' = s) ∨
         (s.generation ≠ g ∧ g < s.generation ∧
          s'.phases.get? i = some Phase.outside ∧ s.arrivals g = T))) ∧
    (∀ i s', s.waiting + 1 = T → sync_step T (SyncAct.arrive i) s = some s' →
        s'.waiting = 0 ∧ s'.generation = s.generation + 1 ∧
        s'.arrivals s.generation = T ∧
        (∀ j g, s'.phases.get? j = some (Phase.waiting g) →
            sync_step T (SyncAct.wake j) s' =
              some { s' with phases := s'.phases.set j Phase.outside } ∧
            (s'.phases.set j Phase.outside).get? j = some Phase.outside)) ∧
    (∀ i, s.phases.get? i = some (Phase.waiting s.generation) →
        sync_step T (SyncAct.wake i) s = some s) := by
  obtain ⟨h1, h2, h3, h4⟩ := sync_inv_reachable T s hr
  refine ⟨?_, ?_, ?_⟩
  · intro i g s' hget hstep
    by_cases hgen : s.generation = g
    · subst hgen
      rw [wake_spurious T s i hget] at hstep
      injection hstep with h'
      exact Or.inl ⟨rfl, h'.symm⟩
    · rw [wake_release T s i g hget hgen] at hstep
      injection hstep with h'
      subst h'
      obtain ⟨hb, -⟩ := List.get?_eq_some.mp hget
      have hlt : g < s.generation := lt_of_le_of_ne (h1 i g hget) (fun hc => hgen hc.symm)
      refine Or.inr ⟨hgen, hlt, ?_, h2 g hlt⟩
      show (s.phases.set i Phase.outside).get? i = some Phase.outside
      exact List.get?_set_eq_of_lt _ hb
  · intro i s' hlast hstep
    rw [sync_step] at hstep
    cases hget : s.phases.get? i with
    | none =>
      rw [hget] at hstep
      cases hstep
    | some ph =>
      cases ph with
      | waiting g =>
        rw [hget] at hstep
        cases hstep
      | outside =>
        rw [hget, if_pos hlast] at hstep
        injection hstep with h'
        subst h'
        refine ⟨rfl, rfl, ?_, ?_⟩
        · show bump_arrivals s s.generation = T
          rw [bump_arrivals, if_pos rfl, h3]
          exact hlast
        · intro j g hj
          have hj' : s.phases.get? j = some (Phase.waiting g) := hj
          obtain ⟨hb, -⟩ := List.get?_eq_some.mp hj'
          have hne : s.generation + 1 ≠ g := by
            have := h1 j g hj'
            omega
          exact ⟨wake_release T _ j g hj hne,
            List.get?_set_eq_of_lt _ hb⟩
  · intro i hget
    exact wake_spurious T s i hget

theorem C1_barrier_witness :
    2 ≤ 2 ∧ SyncReachable 2 (sync_init 2) ∧
    (∀ i, (sync_init 2).phases.get? i =
        some (Phase.waiting (sync_init 2).generation) →
      sync_step 2 (SyncAct.wake i) (sync_init 2) = some (sync_init 2)) :=
  ⟨by decide, SyncReachable.init,
   (C1_barrier 2 (by decide) (sync_init 2) SyncReachable.init).2.2⟩

end Winter
